import Mathlib

/-!
Shallow embedding of `bwpy/signal.py` (the `Transformer` hierarchy) and proofs
about its transformers.

Arrays are modelled as nested lists with rational numbers standing for the
floating-point sample values; the axis order of a 3-dimensional sample array is
(sweep, channel, sample), matching the source.  Fallible calls return `Except`:
the Python code signals failures by raising (its own `ValueError` for a
non-1-dimensional shutter mask, numpy's errors for an invalid window size, a
missing axis, or a mismatched boolean index), which the embedding names with
the error kinds of the specification's error model.
-/

namespace Bwpy

/-- Error kinds raised by the transformers.  `invalidShape` stands for the
shutter's own ValueError on a mask that is not 1-dimensional and for numpy's
axis errors on arrays of unsupported dimensionality; `invalidParameter` stands
for numpy's errors on a window size outside the valid range; `indexError`
stands for numpy's error when a boolean index does not match the indexed
axis. -/
inductive PyErr where
  | invalidShape
  | invalidParameter
  | indexError
deriving DecidableEq

/-- A 3-dimensional sample array with axes (sweep, channel, sample). -/
abbrev Arr3 := List (List (List ℚ))

/-- An array as handed to a transformer: the specification's data model has
3-dimensional sample arrays that may degrade to lower dimensions when the
sample axis has been reduced away. -/
inductive NDData where
  | d1 (v : List ℚ)
  | d2 (m : List (List ℚ))
  | d3 (t : List (List (List ℚ)))
deriving DecidableEq

/-- Number of axes of the array (numpy's `ndim`). -/
def NDData.ndim : NDData → ℕ
  | .d1 _ => 1
  | .d2 _ => 2
  | .d3 _ => 3

/-- Rectangularity: `t` is an `S × C × N` array (every sweep holds `C`
channels of `N` samples each). -/
def Rect3 (t : Arr3) (S C N : ℕ) : Prop :=
  t.length = S ∧ ∀ sw ∈ t, sw.length = C ∧ ∀ ch ∈ sw, ch.length = N

instance (t : Arr3) (S C N : ℕ) : Decidable (Rect3 t S C N) := by
  unfold Rect3; infer_instance

/-- Sample-axis length `data.shape[2]`, read off the first sweep's first
channel (all channels agree by rectangularity). -/
def sampleCount (t : Arr3) : ℕ := ((t.headD []).headD []).length

/-- `Transformer._apply_window`: `sliding_window_view(data, (rows, cols,
bin_size)).reshape(-1, rows, cols, bin_size)`.  The sweep and channel axes are
taken at full extent, so sliding happens only along the sample axis: window `k`
holds samples `k .. k+b-1` of every sweep and channel, and windows are ordered
by increasing starting index. -/
def apply_window (t : Arr3) (b : ℕ) : List Arr3 :=
  (List.range (sampleCount t - b + 1)).map fun k =>
    t.map fun sw => sw.map fun ch => (ch.drop k).take b

/-- `Transformer._apply_window` with numpy's failure behaviour: for `bin_size`
larger than the sample axis `sliding_window_view` raises (window shape cannot
be larger than the input array shape), for a negative `bin_size` it raises
(window shape cannot contain negative values), and for `bin_size = 0` the
`reshape(-1, ...)` raises because the unknown dimension of a size-0 array is
ambiguous.  All of these are the specification's `InvalidParameter` kind. -/
def apply_windowE (t : Arr3) (b : ℤ) : Except PyErr (List Arr3) :=
  if 1 ≤ b ∧ b ≤ (sampleCount t : ℤ) then .ok (apply_window t b.toNat)
  else .error .invalidParameter

/-- `np.max` along a (nonempty) axis; the `[]` case is unreachable for
`bin_size ≥ 1`. -/
def maxD : List ℚ → ℚ
  | [] => 0
  | x :: xs => xs.foldl max x

/-- `np.min` along a (nonempty) axis; the `[]` case is unreachable for
`bin_size ≥ 1`. -/
def minD : List ℚ → ℚ
  | [] => 0
  | x :: xs => xs.foldl min x

/-- Reduction of one bin by `Variation`: `np.max(np.abs(w)) - np.min(np.abs(w))`. -/
def variationStat (bins : List ℚ) : ℚ :=
  maxD (bins.map fun x => |x|) - minD (bins.map fun x => |x|)

/-- Reduction of one bin by `Amplitude`: `np.max(np.abs(w))`. -/
def amplitudeStat (bins : List ℚ) : ℚ :=
  maxD (bins.map fun x => |x|)

/-- Reduction of one bin by `Energy`: `np.sum(np.square(w))`. -/
def energyStat (bins : List ℚ) : ℚ :=
  (bins.map fun x => x * x).sum

/-- Reduce the bin axis (axis 3) of the windowed array. -/
def reduceBins (stat : List ℚ → ℚ) (ws : List Arr3) : Arr3 :=
  ws.map fun w => w.map fun sw => sw.map fun bins => stat bins

/-- `Variation.__call__`: passthrough when `data.ndim < 3`, otherwise window
extraction followed by `np.max(np.abs(windows), axis=3) -
np.min(np.abs(windows), axis=3)`. -/
def Variation.call (bin_size : ℤ) (data : NDData) : Except PyErr NDData :=
  match data with
  | .d3 t => (apply_windowE t bin_size).map fun ws => .d3 (reduceBins variationStat ws)
  | d => .ok d

/-- `Amplitude.__call__`: passthrough when `data.ndim < 3`, otherwise
`np.max(np.abs(windows), axis=3)`. -/
def Amplitude.call (bin_size : ℤ) (data : NDData) : Except PyErr NDData :=
  match data with
  | .d3 t => (apply_windowE t bin_size).map fun ws => .d3 (reduceBins amplitudeStat ws)
  | d => .ok d

/-- `Energy.__call__`: passthrough when `data.ndim < 3`, otherwise
`np.sum(np.square(windows), axis=3)`. -/
def Energy.call (bin_size : ℤ) (data : NDData) : Except PyErr NDData :=
  match data with
  | .d3 t => (apply_windowE t bin_size).map fun ws => .d3 (reduceBins energyStat ws)
  | d => .ok d

/-- `np.moveaxis(t, 2, 0)` on an `S × C × N` array: the result holds, at
position `(n, s, c)`, the value `t[s][c][n]`. -/
def moveaxis_2_0 (t : Arr3) : Arr3 :=
  (List.range (sampleCount t)).map fun n =>
    t.map fun sw => sw.map fun ch => ch.getD n 0

/-- `np.moveaxis(u, 0, 2)` on an `N × S × C` array: the result holds, at
position `(s, c, n)`, the value `u[n][s][c]`. -/
def moveaxis_0_2 (u : Arr3) : Arr3 :=
  (List.range (u.headD []).length).map fun s =>
    (List.range ((u.headD []).headD []).length).map fun c =>
      u.map fun layer => (layer.getD s []).getD c 0

/-- `Raw.__call__`: `np.moveaxis(data, 2, 0)` unconditionally.  On an array of
fewer than 3 dimensions numpy raises an axis error (source axis 2 does not
exist); there is no passthrough branch in the source. -/
def Raw.call (data : NDData) : Except PyErr NDData :=
  match data with
  | .d3 t => .ok (.d3 (moveaxis_2_0 t))
  | _ => .error .invalidShape

/-- Result of `DetectArtifacts.__call__`: either the untouched input (the
`ndim < 3` passthrough) or the boolean per-sweep mask. -/
inductive DetectResult where
  | passthrough (d : NDData)
  | mask (m : List Bool)
deriving DecidableEq

/-- Per-sweep mask of `DetectArtifacts`: `np.sum(data > up_limit, axis=(1, 2))
> 80` — a sweep is flagged when strictly more than 80 of its samples (counted
over the channel and sample axes together) strictly exceed `up_limit`. -/
def detectMask (up_limit : ℚ) (t : Arr3) : List Bool :=
  t.map fun sw =>
    decide (80 < (sw.map fun ch => ch.countP fun x => decide (up_limit < x)).sum)

/-- `DetectArtifacts.__call__`: passthrough when `data.ndim < 3`, otherwise the
bound is `file.convert(file.max_volt) * 0.98` and the per-sweep mask is
returned. -/
def DetectArtifacts.call (convert : ℚ → ℚ) (max_volt : ℚ) (data : NDData) :
    DetectResult :=
  match data with
  | .d3 t => .mask (detectMask (convert max_volt * (98 / 100)) t)
  | d => .passthrough d

/-- Python's `int()` on a rational value truncates toward zero. -/
def pythonInt (q : ℚ) : ℤ := Int.tdiv q.num q.den

/-- `Shutter.ms_to_idx`: `int(delay_ms * file.sampling_rate * 1000)` — the
source's literal formula, multiplying by 1000. -/
def Shutter.ms_to_idx (sampling_rate delay_ms : ℚ) : ℤ :=
  pythonInt (delay_ms * sampling_rate * 1000)

/-- Stop bound of the Python slice `v[start : stop]` for step 1: a negative
`stop` counts from the end (clamped at 0), a nonnegative one is clamped at the
length. -/
def pySliceStop (len : ℕ) (stop : ℤ) : ℕ :=
  if stop < 0 then (stop + len).toNat else min stop.toNat len

/-- Set every entry of `v` with index in `[lo, hi)` to `true` (the slice
assignment `v[lo:hi] = 1` on a boolean array). -/
def setTrueRange (v : List Bool) (lo hi : ℕ) : List Bool :=
  (List.range v.length).map fun k => if lo ≤ k ∧ k < hi then true else v.getD k false

/-- One body of the shutter loop: `mask[i : i + delay] = 1`. -/
def shutterSlice (v : List Bool) (i : ℕ) (delay : ℤ) : List Bool :=
  setTrueRange v i (pySliceStop v.length ((i : ℤ) + delay))

/-- The shutter loop `for i in range(len(mask) - 1, 0, -1)`: with counter
`c + 1` the index `c + 1` is processed and the scan continues downward; the
counter `0` stops the loop, so index 0 is never processed. -/
def shutterScan (delay : ℤ) : List Bool → ℕ → List Bool
  | v, 0 => v
  | v, c + 1 =>
      shutterScan delay
        (if v.getD (c + 1) false then shutterSlice v (c + 1) delay else v) c

/-- Full mask expansion of `Shutter.__call__`: scan from `len(mask) - 1` down
to index 1, expanding each flagged entry forward by `delay`. -/
def expandMask (v : List Bool) (delay : ℤ) : List Bool :=
  shutterScan delay v (v.length - 1)

/-- Boolean-mask row selection `data[mask]`: the rows at the indices where the
mask is true, in their original order. -/
def selectRows {α : Type} (rows : List α) (v : List Bool) : List α :=
  ((rows.zip v).filter fun p => p.2).map fun p => p.1

/-- The mask argument of `Shutter.__call__` as a possibly higher-dimensional
boolean array. -/
inductive MaskArg where
  | m1 (v : List Bool)
  | m2 (m : List (List Bool))
  | m3 (t : List (List (List Bool)))
deriving DecidableEq

/-- Number of axes of the mask argument. -/
def MaskArg.ndim : MaskArg → ℕ
  | .m1 _ => 1
  | .m2 _ => 2
  | .m3 _ => 3

/-- `Shutter.__call__`: raise the shape error when `mask.ndim > 1`; otherwise
compute the delay, expand the mask in place, and return `self.data[mask]`.
numpy's boolean indexing raises when the mask length does not match the row
count (`indexError`); no other failure is possible on a 1-dimensional mask. -/
def Shutter.call {α : Type} (data : List α) (delay_ms : ℚ) (sampling_rate : ℚ)
    (mask : MaskArg) : Except PyErr (List α) :=
  match mask with
  | .m1 v =>
      let delay := Shutter.ms_to_idx sampling_rate delay_ms
      let expanded := expandMask v delay
      if data.length = expanded.length then .ok (selectRows data expanded)
      else .error .indexError
  | _ => .error .invalidShape

/-- Mask expansion as claim C1 words it (for comparison with `expandMask`):
scan from the last index to the first — index 0 included — and whenever a
flagged entry at index `i` is found set every entry from `i` through `i + d`
inclusive (bounded by the array length) to flagged. -/
def specScanC1 (d : ℕ) : List Bool → ℕ → List Bool
  | v, 0 => v
  | v, c + 1 => specScanC1 d (if v.getD c false then setTrueRange v c (c + d + 1) else v) c

/-- Full expansion as claim C1 words it: indices `v.length - 1` down to 0. -/
def specExpandMaskC1 (v : List Bool) (d : ℕ) : List Bool :=
  specScanC1 d v v.length

/-! Helper lemmas on list indexing. -/

lemma getD_map {α β : Type} (f : α → β) (l : List α) (n : ℕ) (d : β) (d' : α)
    (h : n < l.length) : (l.map f).getD n d = f (l.getD n d') := by
  rw [List.getD_eq_getElem _ _ (by simpa using h), List.getD_eq_getElem _ _ h]
  simp

lemma getD_range_map {α : Type} (f : ℕ → α) (d : α) (n k : ℕ) (h : k < n) :
    ((List.range n).map f).getD k d = f k := by
  rw [getD_map f _ k d 0 (by simpa using h)]
  congr 1
  rw [List.getD_eq_getElem _ _ (by simpa using h)]
  simp

lemma range_map_getD {α : Type} (l : List α) (d : α) :
    (List.range l.length).map (fun i => l.getD i d) = l := by
  apply List.ext_getElem (by simp)
  intro i h1 h2
  simp [List.getD_eq_getElem _ _ h2, List.getElem?_eq_getElem h2]

lemma getD_true_lt (v : List Bool) (i : ℕ) (h : v.getD i false = true) :
    i < v.length := by
  by_contra hi
  rw [List.getD_eq_default _ _ (by omega)] at h
  exact Bool.false_ne_true h

@[simp] lemma length_setTrueRange (v : List Bool) (lo hi : ℕ) :
    (setTrueRange v lo hi).length = v.length := by
  simp [setTrueRange]

@[simp] lemma length_shutterSlice (v : List Bool) (i : ℕ) (delay : ℤ) :
    (shutterSlice v i delay).length = v.length := by
  simp [shutterSlice]

@[simp] lemma length_shutterScan (delay : ℤ) (v : List Bool) (c : ℕ) :
    (shutterScan delay v c).length = v.length := by
  induction c generalizing v with
  | zero => rfl
  | succ c ih =>
      rw [shutterScan]
      split
      · rw [ih, length_shutterSlice]
      · rw [ih]

@[simp] lemma length_expandMask (v : List Bool) (delay : ℤ) :
    (expandMask v delay).length = v.length := by
  simp [expandMask]

lemma getD_setTrueRange (v : List Bool) (lo hi j : ℕ) :
    (setTrueRange v lo hi).getD j false = true ↔
      v.getD j false = true ∨ (lo ≤ j ∧ j < hi ∧ j < v.length) := by
  by_cases hj : j < v.length
  · rw [setTrueRange, getD_range_map _ _ _ _ hj]
    by_cases hlo : lo ≤ j <;> by_cases hhi : j < hi <;> simp [hlo, hhi, hj]
  · rw [List.getD_eq_default _ _ (by simp; omega),
      List.getD_eq_default _ _ (by omega)]
    simp
    omega

lemma getD_setTrueRange_lt (v : List Bool) (lo hi j : ℕ) (h : j < lo) :
    (setTrueRange v lo hi).getD j false = v.getD j false := by
  by_cases hj : j < v.length
  · rw [setTrueRange, getD_range_map _ _ _ _ hj, if_neg (by omega)]
  · rw [List.getD_eq_default _ _ (by simp; omega),
      List.getD_eq_default _ _ (by omega)]

lemma getD_shutterSlice_nat (v : List Bool) (i j d : ℕ) :
    (shutterSlice v i (d : ℤ)).getD j false = true ↔
      v.getD j false = true ∨ (i ≤ j ∧ j < i + d ∧ j < v.length) := by
  have hstop : pySliceStop v.length ((i : ℤ) + d) = min (i + d) v.length := by
    rw [pySliceStop, if_neg (by omega)]
    omega
  have harith : (i ≤ j ∧ j < min (i + d) v.length ∧ j < v.length) ↔
      (i ≤ j ∧ j < i + d ∧ j < v.length) := by omega
  rw [shutterSlice, hstop, getD_setTrueRange, harith]

lemma getD_shutterSlice_nat_lt (v : List Bool) (i j d : ℕ) (h : j < i) :
    (shutterSlice v i (d : ℤ)).getD j false = v.getD j false :=
  getD_setTrueRange_lt _ _ _ _ h

/-- Invariant of the shutter loop: after processing the indices `c, c-1, ...,
1`, an entry `j` is flagged exactly when it was flagged in the input or some
input entry at an index `i` with `1 ≤ i ≤ c` was flagged and `j` lies in the
half-open expansion range `[i, i + d)`.  (Each step only writes at indices
`≥ i`, so the values the scan reads are the input's.) -/
lemma getD_shutterScan (d : ℕ) :
    ∀ (c : ℕ) (v : List Bool) (j : ℕ), c < v.length → j < v.length →
      ((shutterScan (d : ℤ) v c).getD j false = true ↔
        (v.getD j false = true ∨
          ∃ i, 1 ≤ i ∧ i ≤ c ∧ v.getD i false = true ∧ i ≤ j ∧ j < i + d))
  | 0, v, j, _, _ => by
      rw [shutterScan]
      constructor
      · exact Or.inl
      · rintro (h | ⟨i, h1, h2, _, _, _⟩)
        · exact h
        · omega
  | c + 1, v, j, hc, hj => by
      rw [shutterScan]
      by_cases hflag : v.getD (c + 1) false = true
      · rw [if_pos hflag]
        rw [getD_shutterScan d c (shutterSlice v (c + 1) (d : ℤ)) j
          (by simp; omega) (by simpa using hj)]
        constructor
        · rintro (h | ⟨i, h1, h2, h3, h4, h5⟩)
          · rw [getD_shutterSlice_nat] at h
            rcases h with h | ⟨h1, h2, h3⟩
            · exact Or.inl h
            · exact Or.inr ⟨c + 1, by omega, by omega, hflag, h1, h2⟩
          · rw [getD_shutterSlice_nat_lt v (c + 1) i d (by omega)] at h3
            exact Or.inr ⟨i, h1, by omega, h3, h4, h5⟩
        · rintro (h | ⟨i, h1, h2, h3, h4, h5⟩)
          · exact Or.inl (by rw [getD_shutterSlice_nat]; exact Or.inl h)
          · by_cases hi : i ≤ c
            · exact Or.inr ⟨i, h1, hi,
                by rw [getD_shutterSlice_nat_lt v (c + 1) i d (by omega)]; exact h3, h4, h5⟩
            · have : i = c + 1 := by omega
              subst this
              refine Or.inl ?_
              rw [getD_shutterSlice_nat]
              exact Or.inr ⟨h4, h5, hj⟩
      · rw [if_neg hflag]
        rw [getD_shutterScan d c v j (by omega) hj]
        constructor
        · rintro (h | ⟨i, h1, h2, h3, h4, h5⟩)
          · exact Or.inl h
          · exact Or.inr ⟨i, h1, by omega, h3, h4, h5⟩
        · rintro (h | ⟨i, h1, h2, h3, h4, h5⟩)
          · exact Or.inl h
          · have hi : i ≤ c := by
              rcases Nat.lt_or_ge i (c + 1) with h' | h'
              · omega
              · exfalso
                have : i = c + 1 := by omega
                exact hflag (this ▸ h3)
            exact Or.inr ⟨i, h1, hi, h3, h4, h5⟩

/-- Closed form of the full expansion: entry `j` of the expanded mask is
flagged exactly when `j` is a valid index and either the input flags `j` or
some input flag at an index `i ≥ 1` reaches `j`, i.e. `i ≤ j < i + d`. -/
lemma getD_expandMask (v : List Bool) (d j : ℕ) :
    ((expandMask v (d : ℤ)).getD j false = true ↔
      (j < v.length ∧ (v.getD j false = true ∨
        ∃ i, 1 ≤ i ∧ v.getD i false = true ∧ i ≤ j ∧ j < i + d))) := by
  by_cases hj : j < v.length
  · have hlen : 1 ≤ v.length := by omega
    rw [expandMask, getD_shutterScan d (v.length - 1) v j (by omega) hj]
    constructor
    · rintro (h | ⟨i, h1, h2, h3, h4, h5⟩)
      · exact ⟨hj, Or.inl h⟩
      · exact ⟨hj, Or.inr ⟨i, h1, h3, h4, h5⟩⟩
    · rintro ⟨-, h | ⟨i, h1, h3, h4, h5⟩⟩
      · exact Or.inl h
      · have := getD_true_lt v i h3
        exact Or.inr ⟨i, h1, by omega, h3, h4, h5⟩
  · rw [List.getD_eq_default _ _ (by simp; omega)]
    simp
    omega

/-- `data[mask]` in terms of indices: the rows at the indices where the mask
is true, in increasing index order. -/
lemma selectRows_eq {α : Type} (d₀ : α) :
    ∀ (rows : List α) (v : List Bool), rows.length = v.length →
      selectRows rows v =
        ((List.range v.length).filter fun i => v.getD i false).map fun i => rows.getD i d₀
  | [], [], _ => rfl
  | [], _ :: _, h => by simp at h
  | _ :: _, [], h => by simp at h
  | r :: rows, b :: v, h => by
      have ih := selectRows_eq d₀ rows v (by simpa using h)
      have hpred : ((fun i => (b :: v).getD i false) ∘ Nat.succ) = fun i => v.getD i false := by
        funext i
        simp
      have hmapf : ((fun i => (r :: rows).getD i d₀) ∘ Nat.succ) = fun i => rows.getD i d₀ := by
        funext i
        simp
      rw [selectRows, List.zip_cons_cons, List.filter_cons, List.length_cons,
        List.range_succ_eq_map, List.filter_cons, List.filter_map, hpred]
      cases b with
      | true =>
          simp only [List.getD_cons_zero, if_true, List.map_cons, List.map_map, hmapf]
          rw [← ih]
          rfl
      | false =>
          simp only [List.getD_cons_zero, Bool.false_eq_true, if_false, List.map_map, hmapf]
          rw [← ih]
          rfl

lemma getD_mem {α : Type} (l : List α) (n : ℕ) (d : α) (h : n < l.length) :
    l.getD n d ∈ l := by
  rw [List.getD_eq_getElem _ _ h]
  exact List.getElem_mem h

/-- Python's `int()` of an integer-valued rational is that integer. -/
lemma pythonInt_intCast (n : ℤ) : pythonInt ((n : ℚ)) = n := by
  unfold pythonInt
  rw [Rat.num_intCast, Rat.den_intCast]
  simp [Int.tdiv_one]

/-- With at least one sweep and one channel, `data.shape[2]` read off the
first channel is the common sample count. -/
lemma sampleCount_eq {t : Arr3} {S C N : ℕ} (h : Rect3 t S C N) (hS : 1 ≤ S)
    (hC : 1 ≤ C) : sampleCount t = N := by
  obtain ⟨hlen, hall⟩ := h
  cases t with
  | nil => simp at hlen; omega
  | cons sw t' =>
      have hsw := hall sw (by simp)
      cases sw with
      | nil =>
          exfalso
          have := hsw.1
          simp at this
          omega
      | cons ch sw' =>
          have hch := (hsw.2) ch (by simp)
          simpa [sampleCount] using hch

lemma rect3_getD_row {t : Arr3} {S C N : ℕ} (hR : Rect3 t S C N) {s : ℕ}
    (hs : s < S) : (t.getD s []).length = C := by
  obtain ⟨h1, h2⟩ := hR
  exact (h2 _ (getD_mem _ _ _ (by omega))).1

lemma rect3_getD_chan {t : Arr3} {S C N : ℕ} (hR : Rect3 t S C N) {s c : ℕ}
    (hs : s < S) (hc : c < C) : ((t.getD s []).getD c []).length = N := by
  obtain ⟨h1, h2⟩ := hR
  have h3 := h2 _ (getD_mem t s [] (by omega))
  exact h3.2 _ (getD_mem _ c [] (by rw [h3.1]; omega))

@[simp] lemma length_apply_window (t : Arr3) (b : ℕ) :
    (apply_window t b).length = sampleCount t - b + 1 := by
  simp [apply_window]

/-- Every window produced by `_apply_window` is an `S × C × b` block. -/
lemma rect3_apply_window {t : Arr3} {S C N : ℕ} (hR : Rect3 t S C N)
    (hS : 1 ≤ S) (hC : 1 ≤ C) (hbN : b ≤ N) :
    ∀ w ∈ apply_window t b, Rect3 w S C b := by
  intro w hw
  rw [apply_window] at hw
  simp only [List.mem_map, List.mem_range] at hw
  obtain ⟨k, hk, rfl⟩ := hw
  rw [sampleCount_eq hR hS hC] at hk
  obtain ⟨hlen, hall⟩ := hR
  refine ⟨by simpa using hlen, ?_⟩
  intro sw' hsw'
  simp only [List.mem_map] at hsw'
  obtain ⟨sw, hsw, rfl⟩ := hsw'
  have h1 := hall sw hsw
  refine ⟨by simpa using h1.1, ?_⟩
  intro ch' hch'
  simp only [List.mem_map] at hch'
  obtain ⟨ch, hch, rfl⟩ := hch'
  have h2 := h1.2 ch hch
  simp only [List.length_take, List.length_drop, h2]
  omega

/-- Entry `(k, s, c, j)` of the windowed array is sample `k + j` of sweep `s`,
channel `c`. -/
lemma getD_apply_window {t : Arr3} {S C N : ℕ} (hR : Rect3 t S C N)
    (hS : 1 ≤ S) (hC : 1 ≤ C) {b k s c j : ℕ} (hk : k < N - b + 1) (hs : s < S)
    (hc : c < C) (hj : j < b) (hbN : b ≤ N) :
    ((((apply_window t b).getD k []).getD s []).getD c []).getD j 0 =
      ((t.getD s []).getD c []).getD (k + j) 0 := by
  have hsc := sampleCount_eq hR hS hC
  have hts : t.length = S := hR.1
  have hrow := rect3_getD_row hR hs
  have hchan := rect3_getD_chan hR hs hc
  rw [apply_window, getD_range_map _ _ _ _ (by omega),
    getD_map _ t s [] [] (by omega), getD_map _ _ c [] [] (by omega)]
  have hkj : k + j < ((t.getD s []).getD c []).length := by omega
  have hjlen : j < ((((t.getD s []).getD c []).drop k).take b).length := by
    simp only [List.length_take, List.length_drop, hchan]
    omega
  rw [List.getD_eq_getElem _ _ hjlen, List.getD_eq_getElem _ _ hkj]
  simp

/-- Reducing the bin axis of the windowed array applies the statistic to each
window slice in place. -/
lemma reduceBins_apply_window (stat : List ℚ → ℚ) (t : Arr3) (b : ℕ) :
    reduceBins stat (apply_window t b) =
      (List.range (sampleCount t - b + 1)).map fun k =>
        t.map fun sw => sw.map fun ch => stat ((ch.drop k).take b) := by
  simp only [reduceBins, apply_window, List.map_map]
  apply List.map_congr_left
  intro k _
  simp [List.map_map, Function.comp]

lemma length_reduceBins (stat : List ℚ → ℚ) (ws : List Arr3) :
    (reduceBins stat ws).length = ws.length := by
  simp [reduceBins]

/-- The reduced array is a `(window count) × S × C` block. -/
lemma rect3_reduceBins {t : Arr3} {S C N : ℕ} (hR : Rect3 t S C N) (hS : 1 ≤ S)
    (hC : 1 ≤ C) (hbN : b ≤ N) (stat : List ℚ → ℚ) :
    Rect3 (reduceBins stat (apply_window t b)) (N - b + 1) S C := by
  refine ⟨by simp [length_reduceBins, sampleCount_eq hR hS hC], ?_⟩
  intro row hrowm
  simp only [reduceBins, List.mem_map] at hrowm
  obtain ⟨w, hw, rfl⟩ := hrowm
  have hrect := rect3_apply_window hR hS hC hbN w hw
  refine ⟨by simpa using hrect.1, ?_⟩
  intro ch' hch'
  simp only [List.mem_map] at hch'
  obtain ⟨sw, hsw, rfl⟩ := hch'
  simpa using (hrect.2 sw hsw).1

/-- Entry `(k, s, c)` of the reduced array is the statistic of the window
slice `samples k .. k+b-1` of sweep `s`, channel `c`. -/
lemma getD_reduceBins {t : Arr3} {S C N : ℕ} (hR : Rect3 t S C N) (hS : 1 ≤ S)
    (hC : 1 ≤ C) {b k s c : ℕ} (hk : k < N - b + 1) (hs : s < S) (hc : c < C)
    (stat : List ℚ → ℚ) :
    (((reduceBins stat (apply_window t b)).getD k []).getD s []).getD c 0 =
      stat ((((t.getD s []).getD c []).drop k).take b) := by
  have hsc := sampleCount_eq hR hS hC
  have hts : t.length = S := hR.1
  have hrow := rect3_getD_row hR hs
  rw [reduceBins_apply_window, getD_range_map _ _ _ _ (by omega),
    getD_map _ t s [] [] (by omega), getD_map _ _ c 0 [] (by omega)]

lemma headD_range_map {α : Type} (f : ℕ → α) (d : α) (n : ℕ) (hn : 1 ≤ n) :
    ((List.range n).map f).headD d = f 0 := by
  cases n with
  | zero => omega
  | succ m => rw [List.range_succ_eq_map, List.map_cons, List.headD_cons]

lemma rect3_moveaxis_2_0 {t : Arr3} {S C N : ℕ} (hR : Rect3 t S C N)
    (hS : 1 ≤ S) (hC : 1 ≤ C) : Rect3 (moveaxis_2_0 t) N S C := by
  refine ⟨by simp [moveaxis_2_0, sampleCount_eq hR hS hC], ?_⟩
  intro layer hl
  simp only [moveaxis_2_0, List.mem_map, List.mem_range] at hl
  obtain ⟨n, hn, rfl⟩ := hl
  refine ⟨by simpa using hR.1, ?_⟩
  intro row hrow
  simp only [List.mem_map] at hrow
  obtain ⟨sw, hsw, rfl⟩ := hrow
  simpa using (hR.2 sw hsw).1

lemma getD_moveaxis_2_0 {t : Arr3} {S C N : ℕ} (hR : Rect3 t S C N)
    (hS : 1 ≤ S) (hC : 1 ≤ C) {n s c : ℕ} (hn : n < N) (hs : s < S) (hc : c < C) :
    (((moveaxis_2_0 t).getD n []).getD s []).getD c 0 =
      ((t.getD s []).getD c []).getD n 0 := by
  rw [moveaxis_2_0, getD_range_map _ _ _ _ (by rw [sampleCount_eq hR hS hC]; omega),
    getD_map _ t s [] [] (by rw [hR.1]; omega),
    getD_map _ _ c 0 [] (by rw [rect3_getD_row hR hs]; omega)]

lemma moveaxis_round_trip {t : Arr3} {S C N : ℕ} (hR : Rect3 t S C N)
    (hS : 1 ≤ S) (hC : 1 ≤ C) (hN : 1 ≤ N) :
    moveaxis_0_2 (moveaxis_2_0 t) = t := by
  have hts : t.length = S := hR.1
  have hsc := sampleCount_eq hR hS hC
  have hu0 : (moveaxis_2_0 t).headD [] = t.map fun sw => sw.map fun ch => ch.getD 0 0 := by
    rw [moveaxis_2_0, headD_range_map _ _ _ (by omega)]
  have hS' : ((moveaxis_2_0 t).headD []).length = S := by
    rw [hu0]
    simpa using hts
  have hC' : (((moveaxis_2_0 t).headD []).headD []).length = C := by
    rw [hu0]
    cases t with
    | nil =>
        exfalso
        simp at hts
        omega
    | cons sw ts =>
        simp only [List.map_cons, List.headD_cons, List.length_map]
        exact (hR.2 sw (by simp)).1
  rw [moveaxis_0_2, hS', hC']
  apply List.ext_getElem (by simpa using hts.symm)
  intro s hs1 hs2
  have hsS : s < S := by simpa using hs1
  rw [List.getElem_map, List.getElem_range]
  have hts_getD : t[s] = t.getD s [] := (List.getD_eq_getElem t [] hs2).symm
  have hrowlen : (t.getD s []).length = C := rect3_getD_row hR hsS
  apply List.ext_getElem
    (by simp only [List.length_map, List.length_range]; rw [hts_getD, hrowlen])
  intro c hc1 hc2
  have hcC : c < C := by simpa using hc1
  rw [List.getElem_map, List.getElem_range]
  have hchan : ((t.getD s []).getD c []).length = N := rect3_getD_chan hR hsS hcC
  rw [moveaxis_2_0, hsc, List.map_map]
  have hmap : ∀ n ∈ List.range N,
      ((fun layer => (layer.getD s []).getD c 0) ∘ fun n =>
        t.map fun sw => sw.map fun ch => ch.getD n 0) n =
        ((t.getD s []).getD c []).getD n 0 := by
    intro n hn
    simp only [Function.comp]
    rw [getD_map _ t s [] [] (by omega),
      getD_map _ _ c 0 [] (by rw [hrowlen]; omega)]
  rw [List.map_congr_left hmap]
  have hrmg := range_map_getD ((t.getD s []).getD c []) 0
  rw [hchan] at hrmg
  rw [hrmg, ← hts_getD]
  exact List.getD_eq_getElem _ _ hc2

/-!
Claim theorems.
-/

/-- C2: on an `S × C × N` array with `1 ≤ b ≤ N`, window extraction yields
exactly `N - b + 1` windows, each an `S × C × b` block, ordered by increasing
starting sample index: entry `j` of window `k` (at any sweep and channel) is
sample `k + j`, so window `k` consists of samples `k` through `k + b - 1`. -/
theorem window_extraction (t : Arr3) (S C N b : ℕ) (hR : Rect3 t S C N)
    (hS : 1 ≤ S) (hC : 1 ≤ C) (hb : 1 ≤ b) (hbN : b ≤ N) :
    (apply_window t b).length = N - b + 1 ∧
    (∀ w ∈ apply_window t b, Rect3 w S C b) ∧
    (∀ k s c j, k < N - b + 1 → s < S → c < C → j < b →
      ((((apply_window t b).getD k []).getD s []).getD c []).getD j 0 =
        ((t.getD s []).getD c []).getD (k + j) 0) :=
  ⟨by simp [sampleCount_eq hR hS hC], rect3_apply_window hR hS hC hbN,
    fun k s c j hk hs hc hj => getD_apply_window hR hS hC hk hs hc hj hbN⟩

/-- Witness for C2: a `1 × 1 × 3` array with `b = 2` has `2` windows of shape
`1 × 1 × 2`, and entry `(k, s, c, j)` is sample `k + j`. -/
theorem window_extraction_witness :
    (Rect3 [[[(1 : ℚ), 2, 3]]] 1 1 3 ∧ 1 ≤ 1 ∧ 1 ≤ 2 ∧ 2 ≤ 3) ∧
    ((apply_window [[[(1 : ℚ), 2, 3]]] 2).length = 3 - 2 + 1 ∧
     (∀ w ∈ apply_window [[[(1 : ℚ), 2, 3]]] 2, Rect3 w 1 1 2) ∧
     (∀ k s c j, k < 3 - 2 + 1 → s < 1 → c < 1 → j < 2 →
       ((((apply_window [[[(1 : ℚ), 2, 3]]] 2).getD k []).getD s []).getD c []).getD j 0 =
         ((([[[(1 : ℚ), 2, 3]]] : Arr3).getD s []).getD c []).getD (k + j) 0)) :=
  ⟨⟨⟨rfl, by simp⟩, le_refl 1, by omega, by omega⟩,
    window_extraction [[[(1 : ℚ), 2, 3]]] 1 1 3 2 ⟨rfl, by simp⟩ (le_refl 1)
      (le_refl 1) (by omega) (by omega)⟩

/-- C3: on an `S × C × N` array with `1 ≤ b ≤ N`, each statistic transformer
reduces every extracted window along the bin axis — Variation to
`max(abs(window)) - min(abs(window))`, Amplitude to `max(abs(window))`, Energy
to the sum of the squared samples — and each result holds one scalar per
(window, sweep, channel). -/
theorem statistic_transformers (t : Arr3) (S C N : ℕ) (b : ℕ)
    (hR : Rect3 t S C N) (hS : 1 ≤ S) (hC : 1 ≤ C) (hb : 1 ≤ b) (hbN : b ≤ N) :
    (Variation.call (b : ℤ) (.d3 t) =
        .ok (.d3 (reduceBins variationStat (apply_window t b))) ∧
      Amplitude.call (b : ℤ) (.d3 t) =
        .ok (.d3 (reduceBins amplitudeStat (apply_window t b))) ∧
      Energy.call (b : ℤ) (.d3 t) =
        .ok (.d3 (reduceBins energyStat (apply_window t b)))) ∧
    (Rect3 (reduceBins variationStat (apply_window t b)) (N - b + 1) S C ∧
      Rect3 (reduceBins amplitudeStat (apply_window t b)) (N - b + 1) S C ∧
      Rect3 (reduceBins energyStat (apply_window t b)) (N - b + 1) S C) ∧
    (∀ k s c, k < N - b + 1 → s < S → c < C →
      (((reduceBins variationStat (apply_window t b)).getD k []).getD s []).getD c 0 =
          maxD (((((t.getD s []).getD c []).drop k).take b).map fun x => |x|) -
            minD (((((t.getD s []).getD c []).drop k).take b).map fun x => |x|) ∧
      (((reduceBins amplitudeStat (apply_window t b)).getD k []).getD s []).getD c 0 =
          maxD (((((t.getD s []).getD c []).drop k).take b).map fun x => |x|) ∧
      (((reduceBins energyStat (apply_window t b)).getD k []).getD s []).getD c 0 =
          (((((t.getD s []).getD c []).drop k).take b).map fun x => x * x).sum) := by
  have hok : apply_windowE t (b : ℤ) = .ok (apply_window t b) := by
    rw [apply_windowE,
      if_pos ⟨by omega, by rw [sampleCount_eq hR hS hC]; omega⟩]
    simp
  refine ⟨⟨?_, ?_, ?_⟩,
    ⟨rect3_reduceBins hR hS hC hbN _, rect3_reduceBins hR hS hC hbN _,
      rect3_reduceBins hR hS hC hbN _⟩, ?_⟩
  · simp only [Variation.call, hok]
    rfl
  · simp only [Amplitude.call, hok]
    rfl
  · simp only [Energy.call, hok]
    rfl
  · intro k s c hk hs hc
    exact ⟨getD_reduceBins hR hS hC hk hs hc _,
      getD_reduceBins hR hS hC hk hs hc _, getD_reduceBins hR hS hC hk hs hc _⟩

/-- Witness for C3 on a `1 × 1 × 2` array with `b = 2`. -/
theorem statistic_transformers_witness :
    (Rect3 [[[(1 : ℚ), -3]]] 1 1 2 ∧ 1 ≤ 1 ∧ 1 ≤ 2 ∧ 2 ≤ 2) ∧
    (Variation.call ((2 : ℕ) : ℤ) (.d3 [[[(1 : ℚ), -3]]]) =
        .ok (.d3 (reduceBins variationStat (apply_window [[[(1 : ℚ), -3]]] 2))) ∧
      Amplitude.call ((2 : ℕ) : ℤ) (.d3 [[[(1 : ℚ), -3]]]) =
        .ok (.d3 (reduceBins amplitudeStat (apply_window [[[(1 : ℚ), -3]]] 2))) ∧
      Energy.call ((2 : ℕ) : ℤ) (.d3 [[[(1 : ℚ), -3]]]) =
        .ok (.d3 (reduceBins energyStat (apply_window [[[(1 : ℚ), -3]]] 2)))) :=
  ⟨⟨⟨rfl, by simp⟩, le_refl 1, by omega, le_refl 2⟩,
    (statistic_transformers [[[(1 : ℚ), -3]]] 1 1 2 2 ⟨rfl, by simp⟩ (le_refl 1)
      (le_refl 1) (by omega) (le_refl 2)).1⟩

/-- C1 (amended): the shutter scans the mask from the last index down to
index 1 (index 0 is never examined); whenever a flagged entry at index `i` is
found it sets every entry of the half-open range `[i, i + d)` — that is, `i`
through `i + d - 1` inclusive, bounded by the array length — to flagged, and
the transform returns the rows of the associated dataset at the indices where
the expanded mask is true, in their original order; for mask `[0,0,1,0,0,0]`
with computed delay 3 (covering 2 indices beyond the flag) the expanded mask
is `[0,0,1,1,1,0]` and selection from a 6-row dataset yields rows 2, 3, 4. -/
theorem shutter_transform (v : List Bool) (d j : ℕ) (rows : List ℚ)
    (delay_ms sampling_rate : ℚ) (hlen : rows.length = v.length) :
    ((expandMask v (d : ℤ)).getD j false = true ↔
      (j < v.length ∧ (v.getD j false = true ∨
        ∃ i, 1 ≤ i ∧ v.getD i false = true ∧ i ≤ j ∧ j < i + d))) ∧
    Shutter.call rows delay_ms sampling_rate (.m1 v) =
      .ok (selectRows rows (expandMask v (Shutter.ms_to_idx sampling_rate delay_ms))) ∧
    selectRows rows (expandMask v (d : ℤ)) =
      ((List.range v.length).filter fun i => (expandMask v (d : ℤ)).getD i false).map
        (fun i => rows.getD i 0) ∧
    Shutter.call [0, 1, 2, 3, 4, 5] (3 / 2000) 2
        (.m1 [false, false, true, false, false, false]) = .ok ([2, 3, 4] : List ℚ) := by
  refine ⟨getD_expandMask v d j, ?_, ?_, ?_⟩
  · simp only [Shutter.call]
    rw [if_pos (by simp [hlen])]
  · have h := selectRows_eq (0 : ℚ) rows (expandMask v (d : ℤ)) (by simp [hlen])
    rw [h, length_expandMask]
  · have hdelay : Shutter.ms_to_idx 2 (3 / 2000) = (3 : ℤ) := by
      unfold Shutter.ms_to_idx
      have h3 : ((3 : ℚ) / 2000 * 2 * 1000) = ((3 : ℤ) : ℚ) := by norm_num
      rw [h3, pythonInt_intCast]
    simp only [Shutter.call, hdelay]
    rfl

/-- Witness for C1 (amended) on a 2-row dataset. -/
theorem shutter_transform_witness :
    ([(5 : ℚ), 6] : List ℚ).length = [false, true].length ∧
    Shutter.call [(5 : ℚ), 6] (3 / 2000) 2 (.m1 [false, true]) =
      .ok (selectRows [(5 : ℚ), 6]
        (expandMask [false, true] (Shutter.ms_to_idx 2 (3 / 2000)))) :=
  ⟨by simp,
    (shutter_transform [false, true] 0 0 [(5 : ℚ), 6] (3 / 2000) 2 (by simp)).2.1⟩

/-- C1 counterexample: with computed delay 1 and mask `[1,0,1,0,0]`, the code
leaves the mask unchanged (the flag at index 0 is never scanned, and the slice
`[i, i + 1)` adds nothing), selecting rows 0 and 2 — while the claim's
expansion (scan to index 0, set `i .. i + d` inclusive) would flag
`[1,1,1,1,0]` and select rows 0, 1, 2, 3. -/
theorem shutter_transform_counterexample :
    Shutter.ms_to_idx 2 (1 / 2000) = 1 ∧
    specExpandMaskC1 [true, false, true, false, false] 1 =
      [true, true, true, true, false] ∧
    expandMask [true, false, true, false, false] 1 =
      [true, false, true, false, false] ∧
    Shutter.call [0, 1, 2, 3, 4] (1 / 2000) 2 (.m1 [true, false, true, false, false]) =
      .ok ([0, 2] : List ℚ) ∧
    selectRows ([0, 1, 2, 3, 4] : List ℚ)
        (specExpandMaskC1 [true, false, true, false, false] 1) = [0, 1, 2, 3] := by
  have hdelay : Shutter.ms_to_idx 2 (1 / 2000) = (1 : ℤ) := by
    unfold Shutter.ms_to_idx
    have h1 : ((1 : ℚ) / 2000 * 2 * 1000) = ((1 : ℤ) : ℚ) := by norm_num
    rw [h1, pythonInt_intCast]
  refine ⟨hdelay, by rfl, by rfl, ?_, by rfl⟩
  simp only [Shutter.call, hdelay]
  rfl

/-- C9: on an `S × C × N` array, RawTransformer is a pure re-layout moving
axis 2 to axis 0: the result has shape `(sample, sweep, channel)` with entry
`(n, s, c)` equal to the input's `(s, c, n)` entry, and moving axis 0 back to
axis 2 reproduces the original array exactly. -/
theorem raw_transformer (t : Arr3) (S C N : ℕ) (hR : Rect3 t S C N)
    (hS : 1 ≤ S) (hC : 1 ≤ C) (hN : 1 ≤ N) :
    Raw.call (.d3 t) = .ok (.d3 (moveaxis_2_0 t)) ∧
    Rect3 (moveaxis_2_0 t) N S C ∧
    (∀ n s c, n < N → s < S → c < C →
      (((moveaxis_2_0 t).getD n []).getD s []).getD c 0 =
        ((t.getD s []).getD c []).getD n 0) ∧
    moveaxis_0_2 (moveaxis_2_0 t) = t :=
  ⟨rfl, rect3_moveaxis_2_0 hR hS hC,
    fun n s c hn hs hc => getD_moveaxis_2_0 hR hS hC hn hs hc,
    moveaxis_round_trip hR hS hC hN⟩

/-- Witness for C9 on a `1 × 1 × 2` array. -/
theorem raw_transformer_witness :
    (Rect3 [[[(7 : ℚ), 8]]] 1 1 2 ∧ 1 ≤ 1 ∧ 1 ≤ 2) ∧
    (Raw.call (.d3 [[[(7 : ℚ), 8]]]) = .ok (.d3 (moveaxis_2_0 [[[(7 : ℚ), 8]]])) ∧
      moveaxis_0_2 (moveaxis_2_0 [[[(7 : ℚ), 8]]]) = [[[(7 : ℚ), 8]]]) :=
  ⟨⟨⟨rfl, by simp⟩, le_refl 1, by omega⟩,
    ⟨(raw_transformer [[[(7 : ℚ), 8]]] 1 1 2 ⟨rfl, by simp⟩ (le_refl 1) (le_refl 1)
        (by omega)).1,
      (raw_transformer [[[(7 : ℚ), 8]]] 1 1 2 ⟨rfl, by simp⟩ (le_refl 1) (le_refl 1)
        (by omega)).2.2.2⟩⟩

/-- C4: ArtifactDetector flags a sweep exactly when the number of its samples
(counted over the channel and sample axes combined) strictly greater than
`convert(max_volt) * 0.98` is strictly greater than 80; with `max_volt = 10`
and `convert` the identity, a sweep of 81 samples valued `9.9` is flagged and
one of 80 such samples is not. -/
theorem artifact_detector (convert : ℚ → ℚ) (max_volt : ℚ) (t : Arr3) (s : ℕ)
    (hs : s < t.length) :
    DetectArtifacts.call convert max_volt (.d3 t) =
        .mask (detectMask (convert max_volt * (98 / 100)) t) ∧
    ((detectMask (convert max_volt * (98 / 100)) t).getD s false = true ↔
      80 < (t.getD s []).flatten.countP
        fun x => decide (convert max_volt * (98 / 100) < x)) ∧
    DetectArtifacts.call id 10 (.d3 [[List.replicate 81 (99 / 10)]]) = .mask [true] ∧
    DetectArtifacts.call id 10 (.d3 [[List.replicate 80 (99 / 10)]]) = .mask [false] := by
  refine ⟨rfl, ?_, ?_, ?_⟩
  · rw [detectMask, getD_map _ t s false [] hs, List.countP_flatten]
    simp
  · have hcount : (List.replicate 81 ((99 : ℚ) / 10)).countP
        (fun x => decide ((10 : ℚ) * (98 / 100) < x)) = 81 := by
      rw [List.countP_replicate, if_pos (by norm_num)]
    simp only [DetectArtifacts.call, detectMask, id_eq, List.map_cons, List.map_nil,
      hcount, List.sum_cons, List.sum_nil]
    rfl
  · have hcount : (List.replicate 80 ((99 : ℚ) / 10)).countP
        (fun x => decide ((10 : ℚ) * (98 / 100) < x)) = 80 := by
      rw [List.countP_replicate, if_pos (by norm_num)]
    simp only [DetectArtifacts.call, detectMask, id_eq, List.map_cons, List.map_nil,
      hcount, List.sum_cons, List.sum_nil]
    rfl

/-- Witness for C4 on a `1 × 1 × 1` array. -/
theorem artifact_detector_witness :
    0 < ([[[(5 : ℚ)]]] : Arr3).length ∧
    ((detectMask ((fun x => x) (10 : ℚ) * (98 / 100)) [[[(5 : ℚ)]]]).getD 0 false = true ↔
      80 < (([[[(5 : ℚ)]]] : Arr3).getD 0 []).flatten.countP
        fun x => decide ((fun x => x) (10 : ℚ) * (98 / 100) < x)) :=
  ⟨by norm_num,
    (artifact_detector (fun x => x) 10 [[[(5 : ℚ)]]] 0 (by norm_num)).2.1⟩

/-- C5: for every non-negative `delay_ms` and `sampling_rate`, the shutter's
delay in index units is `floor(delay_ms * sampling_rate * 1000)` — the literal
formula multiplies by 1000 (so `ms_to_idx 1 1 = 1000`, not `0`). -/
theorem ms_to_idx_is_floor (delay_ms sampling_rate : ℚ) (h1 : 0 ≤ delay_ms)
    (h2 : 0 ≤ sampling_rate) :
    Shutter.ms_to_idx sampling_rate delay_ms = ⌊delay_ms * sampling_rate * 1000⌋ ∧
      Shutter.ms_to_idx 1 1 = 1000 := by
  constructor
  · unfold Shutter.ms_to_idx pythonInt
    rw [Rat.floor_def]
    exact Int.tdiv_eq_ediv (Rat.num_nonneg.mpr (by positivity)) (by positivity)
  · unfold Shutter.ms_to_idx
    have h : ((1 : ℚ) * 1 * 1000) = ((1000 : ℤ) : ℚ) := by norm_num
    rw [h, pythonInt_intCast]

/-- Witness for C5 at `delay_ms = 3/2000`, `sampling_rate = 2`. -/
theorem ms_to_idx_is_floor_witness :
    (0 ≤ (3 / 2000 : ℚ)) ∧ (0 ≤ (2 : ℚ)) ∧
      Shutter.ms_to_idx 2 (3 / 2000) = ⌊(3 / 2000 : ℚ) * 2 * 1000⌋ :=
  ⟨by norm_num, by norm_num,
    (ms_to_idx_is_floor (3 / 2000) 2 (by norm_num) (by norm_num)).1⟩

/-- C6: every input array of fewer than 3 dimensions is returned unchanged by
each statistic transformer (Variation, Amplitude, Energy) and by
ArtifactDetector — identity passthrough, not an error. -/
theorem passthrough_non3d (b : ℤ) (v : List ℚ) (m : List (List ℚ))
    (convert : ℚ → ℚ) (max_volt : ℚ) :
    Variation.call b (.d1 v) = .ok (.d1 v) ∧
    Variation.call b (.d2 m) = .ok (.d2 m) ∧
    Amplitude.call b (.d1 v) = .ok (.d1 v) ∧
    Amplitude.call b (.d2 m) = .ok (.d2 m) ∧
    Energy.call b (.d1 v) = .ok (.d1 v) ∧
    Energy.call b (.d2 m) = .ok (.d2 m) ∧
    DetectArtifacts.call convert max_volt (.d1 v) = .passthrough (.d1 v) ∧
    DetectArtifacts.call convert max_volt (.d2 m) = .passthrough (.d2 m) :=
  ⟨rfl, rfl, rfl, rfl, rfl, rfl, rfl, rfl⟩

/-- C7: the shutter fails with the `InvalidShape` error exactly when its mask
argument is not strictly 1-dimensional; a 1-dimensional mask never raises that
error. -/
theorem shutter_invalid_shape_iff (rows : List ℚ) (delay_ms sampling_rate : ℚ)
    (mk : MaskArg) :
    Shutter.call rows delay_ms sampling_rate mk = .error .invalidShape ↔
      mk.ndim ≠ 1 := by
  cases mk with
  | m1 v =>
      simp only [Shutter.call, MaskArg.ndim, ne_eq, not_true_eq_false, iff_false]
      intro h
      split at h
      · exact Except.noConfusion h
      · injection h with h'
        exact PyErr.noConfusion h'
  | m2 m => simp [Shutter.call, MaskArg.ndim]
  | m3 t => simp [Shutter.call, MaskArg.ndim]

/-- C10: RawTransformer has no dimensionality passthrough — inputs of fewer
than 3 dimensions fail (numpy cannot move axis 2 of such an array), while the
statistic transformers and ArtifactDetector pass the same inputs through
unchanged. -/
theorem raw_no_passthrough (v : List ℚ) (m : List (List ℚ)) (b : ℤ)
    (convert : ℚ → ℚ) (max_volt : ℚ) :
    Raw.call (.d1 v) = .error .invalidShape ∧
    Raw.call (.d2 m) = .error .invalidShape ∧
    Variation.call b (.d1 v) = .ok (.d1 v) ∧
    Amplitude.call b (.d2 m) = .ok (.d2 m) ∧
    Energy.call b (.d1 v) = .ok (.d1 v) ∧
    DetectArtifacts.call convert max_volt (.d2 m) = .passthrough (.d2 m) :=
  ⟨rfl, rfl, rfl, rfl, rfl, rfl⟩

/-- C8 counterexample: a negative `delay_ms` does not make the shutter fail —
the call completes and returns a selection (here the computed delay is
`-5000`, every expansion slice is empty, and row 20 is selected), so no
`InvalidParameter` error is raised to the caller. -/
theorem error_handling_counterexample :
    Shutter.call [10, 20, 30] (-5) 1 (.m1 [false, true, false]) =
      .ok ([20] : List ℚ) := by
  have hdelay : Shutter.ms_to_idx 1 (-5) = -5000 := by
    unfold Shutter.ms_to_idx
    have h : ((-5 : ℚ) * 1 * 1000) = ((-5000 : ℤ) : ℚ) := by norm_num
    rw [h, pythonInt_intCast]
  simp only [Shutter.call, hdelay]
  rfl

/-- C8 (amended): a `bin_size` outside `[1, sample_count]` makes each
statistic transformer fail immediately with the `InvalidParameter` error (no
partial result), but a negative `delay_ms` does not make the shutter fail:
the call completes normally and returns the mask-selected rows. -/
theorem error_handling_amended (t : Arr3) (b : ℤ) (rows : List ℚ)
    (v : List Bool) (delay_ms sampling_rate : ℚ)
    (hb : b < 1 ∨ (sampleCount t : ℤ) < b) (_hneg : delay_ms < 0)
    (hlen : rows.length = v.length) :
    Variation.call b (.d3 t) = .error .invalidParameter ∧
    Amplitude.call b (.d3 t) = .error .invalidParameter ∧
    Energy.call b (.d3 t) = .error .invalidParameter ∧
    Shutter.call rows delay_ms sampling_rate (.m1 v) =
      .ok (selectRows rows (expandMask v (Shutter.ms_to_idx sampling_rate delay_ms))) := by
  have hwin : apply_windowE t b = .error .invalidParameter := by
    rw [apply_windowE, if_neg (by omega)]
  refine ⟨?_, ?_, ?_, ?_⟩
  · simp only [Variation.call, hwin]
    rfl
  · simp only [Amplitude.call, hwin]
    rfl
  · simp only [Energy.call, hwin]
    rfl
  · simp only [Shutter.call]
    rw [if_pos (by simp [hlen])]

/-- Witness for C8 (amended): `bin_size = 5` on a 2-sample array, and
`delay_ms = -5`. -/
theorem error_handling_amended_witness :
    ((5 : ℤ) < 1 ∨ ((sampleCount [[[(1 : ℚ), 2]]] : ℕ) : ℤ) < 5) ∧
    ((-5 : ℚ) < 0) ∧
    ([10, 20, 30] : List ℚ).length = [false, true, false].length ∧
    (Variation.call 5 (.d3 [[[(1 : ℚ), 2]]]) = .error .invalidParameter ∧
     Amplitude.call 5 (.d3 [[[(1 : ℚ), 2]]]) = .error .invalidParameter ∧
     Energy.call 5 (.d3 [[[(1 : ℚ), 2]]]) = .error .invalidParameter ∧
     Shutter.call [10, 20, 30] (-5) 1 (.m1 [false, true, false]) =
       .ok (selectRows ([10, 20, 30] : List ℚ)
         (expandMask [false, true, false] (Shutter.ms_to_idx 1 (-5))))) :=
  ⟨Or.inr (by norm_num [sampleCount]), by norm_num, by simp,
    error_handling_amended [[[(1 : ℚ), 2]]] 5 [10, 20, 30] [false, true, false]
      (-5) 1 (Or.inr (by norm_num [sampleCount])) (by norm_num) (by simp)⟩

end Bwpy
